import Mathlib

/-!
Verification development for the AShareData factor library.

The embedding covers, from `src/AShareData/Factor.py`:
  * `Factor.__init__` / `Factor._check_args` (schema validation),
  * `CompactFactor.get_data` (event factors, forward fill),
  * `YearlyReportFinancialFactor.get_data` (point-in-time yearly
    financial-statement factor),
and, from `src/AShareData/AShareDataReader.py`:
  * `AShareDataReader._conform_df` and `AShareDataReader.get_factor`.

Dates are embedded as natural numbers (absolute day numbers); a reporting
period (`报告期`) is embedded as `year * 100 + month`, so the source's
`.month == 12` filter becomes `period % 100 = 12`.  The trading calendar
(`TradingCalendar`, whose implementation file is not part of the sources,
only its callers and tests) is modelled from the spec.  Pandas frames in
wide form are embedded as a row-label list, a column-label list and a
total cell function; `reindex` drops rows whose label is absent from the
new index, and `ffill` propagates the last non-missing value positionally
down each column, exactly as pandas does.
-/

namespace AShareData

/-- Modelled from the spec: the number of trading days of the calendar that
are at or before `d`.  The calendar is the ordered list of trading days
owned by `TradingCalendar` (implementation not in the sources). -/
def countLE (cal : List Nat) (d : Nat) : Nat :=
  (cal.filter (fun x => decide (x ≤ d))).length

/-- Modelled from the spec: `TradingCalendar.days_count` — the signed count
of trading days after `start`, up to and including `end`; swapping the
arguments negates the result. -/
def daysCount (cal : List Nat) (s e : Nat) : Int :=
  (countLE cal e : Int) - (countLE cal s : Int)

/-- Modelled from the spec: `TradingCalendar.select_dates(start, end)` —
the inclusive ordered range of trading days between `s` and `e`. -/
def selectDates (cal : List Nat) (s e : Nat) : List Nat :=
  cal.filter (fun d => decide (s ≤ d ∧ d ≤ e))

/-- Modelled from the spec: `TradingCalendar.select_dates(end_date=e)` with
no start bound — all trading days up to and including `e`. -/
def selectDatesTo (cal : List Nat) (e : Nat) : List Nat :=
  cal.filter (fun d => decide (d ≤ e))

/-- Modelled from the spec: `select_dates` with both bounds optional, as
called by `AShareDataReader._conform_df` where either bound may be `None`
(meaning unbounded). -/
def selectDatesOpt (cal : List Nat) (s? e? : Option Nat) : List Nat :=
  cal.filter (fun d =>
    (match s? with | none => true | some s => decide (s ≤ d)) &&
    (match e? with | none => true | some e => decide (d ≤ e)))

/-- Python truthiness of an optional list argument: `None` and the empty
list are both falsy (`if dates:` / `if ids:` in the source). -/
def truthyL {α : Type} : Option (List α) → Option (List α)
  | some [] => none
  | x => x

/-- One row of a long-form table of (DateTime, ID, value): an event record
or one daily observation. -/
structure EventRow where
  dt : Nat
  id : String
  value : Int
deriving DecidableEq

/-- One row of a financial-statement table of
(DateTime, ID, 报告期, value): `dt` is the disclosure date, `period` the
reporting period (`year * 100 + month`), `value` possibly missing. -/
structure StmtRow where
  dt : Nat
  id : String
  period : Nat
  value : Option Int
deriving DecidableEq

/-- Wide (unstacked) frame: ordered row labels (dates), ordered column
labels (security ids) and a cell function; `none` is a missing value. -/
structure WideDF where
  rows : List Nat
  cols : List String
  cell : Nat → String → Option Int

/-- Embeds `Series.unstack()` of a long-form (DateTime, ID) table: rows are
the distinct dates, columns the distinct ids, and a cell holds the value of
the (unique) record with that date and id. -/
def unstackTable (tbl : List EventRow) : WideDF :=
  { rows := (tbl.map (·.dt)).dedup
    cols := (tbl.map (·.id)).dedup
    cell := fun d i =>
      (tbl.find? (fun r => decide (r.dt = d ∧ r.id = i))).map (·.value) }

/-- Embeds `unstack()` after `droplevel('报告期')` of a statement table:
the reporting-period level is discarded and cells are indexed by
(disclosure date, id) alone. -/
def unstackStmt (tbl : List StmtRow) : WideDF :=
  { rows := (tbl.map (·.dt)).dedup
    cols := (tbl.map (·.id)).dedup
    cell := fun d i =>
      (tbl.find? (fun r => decide (r.dt = d ∧ r.id = i))).bind (·.value) }

/-- Embeds one step of pandas `ffill`: a non-missing cell replaces the
carried value, a missing cell keeps it. -/
def ffillStep (g : Nat → Option Int) (acc : Option Int) (x : Nat) : Option Int :=
  match g x with
  | some v => some v
  | none => acc

/-- Embeds `reindex(idx).ffill()` for one column with cell function `g`:
walk the new row labels in order, carrying the last non-missing value
forward, and record the filled value at each label. -/
def ffillCol (g : Nat → Option Int) : Option Int → List Nat → List (Nat × Option Int)
  | _, [] => []
  | carry, x :: xs =>
    let v := ffillStep g carry x
    (x, v) :: ffillCol g v xs

/-- Value of a filled column at row label `d` (missing if `d` is not a row
label, as after a further `reindex`). -/
def lookupRow (fr : List (Nat × Option Int)) (d : Nat) : Option Int :=
  match fr.find? (fun p => decide (p.1 = d)) with
  | some p => p.2
  | none => none

/-! ### `Factor.__init__` and `Factor._check_args` -/

/-- Embeds Python `str.lower()` on one character: ASCII upper-case letters
are shifted to lower case, all other characters (including the CJK table
names used by the repository) are unchanged. -/
def lowerChar (c : Char) : Char :=
  if c.isUpper then Char.ofNat (c.toNat + 32) else c

/-- Embeds Python `table_name.lower()`. -/
def pyLower (s : String) : String := String.mk (s.data.map lowerChar)

/-- The store schema seen through `DBInterface`: a list of
(table name, column names) pairs. -/
abbrev Store := List (String × List String)

/-- Embeds `DBInterface.exist_table`. -/
def existTable (db : Store) (name : String) : Bool :=
  db.any (fun t => decide (t.1 = name))

/-- Embeds `DBInterface.get_columns_names`. -/
def getColumnsNames (db : Store) (name : String) : List String :=
  match db.find? (fun t => decide (t.1 = name)) with
  | some t => t.2
  | none => []

/-- The `factor_names` argument of `Factor.__init__`:
`Union[str, Sequence[str]]`. -/
inductive FactorNames where
  | one : String → FactorNames
  | many : List String → FactorNames
deriving DecidableEq

/-- Python truthiness of `factor_names` (`if factor_names:`): the empty
string and the empty list are falsy. -/
def FactorNames.truthy : FactorNames → Bool
  | .one s => decide (s ≠ "")
  | .many l => decide (l ≠ [])

/-- The requested field names as a list; the `isinstance(factor_names, str)`
branch checks the single name, the other branch loops over the sequence. -/
def FactorNames.toList : FactorNames → List String
  | .one s => [s]
  | .many l => l

/-- Embeds `Factor._check_args`: lower-case the table name, assert the
table exists, and, when `factor_names` is truthy, assert every requested
name is a column of the table.  A failed `assert` raises, embedded as
`Except.error`. -/
def checkArgs (db : Store) (tableName : String) (fn : FactorNames) : Except String Unit :=
  let t := pyLower tableName
  if existTable db t then
    if fn.truthy then
      let columns := getColumnsNames db t
      if fn.toList.all (fun n => decide (n ∈ columns)) then
        Except.ok ()
      else
        Except.error "AssertionError: column not in table"
    else
      Except.ok ()
  else
    Except.error "AssertionError: table not in database"

/-- The identity stored by a constructed `Factor`: the (unnormalized)
table name and the field names. -/
structure FactorId where
  tableName : String
  factorNames : FactorNames
deriving DecidableEq

/-- Embeds `Factor.__init__`: run `_check_args`, then store the table name
and factor names.  Construction fails exactly when `_check_args` raises. -/
def factorInit (db : Store) (tableName : String) (fn : FactorNames) : Except String FactorId :=
  (checkArgs db tableName fn).map (fun _ => ⟨tableName, fn⟩)

/-! ### `CompactFactor.get_data` -/

/-- A constructed `CompactFactor`: `self.data` is the eagerly loaded
long-form event table (`db_interface.read_table(factor_name)`). -/
structure CompactFactor where
  data : List EventRow
deriving DecidableEq

/-- Embeds `CompactFactor.get_data`.  The state (`self`) is threaded
explicitly and returned alongside the result; the body starts from
`self.data.copy()` and never writes back to `self`.  `today` stands for
`dt.datetime.today()`.  Label selection (`data.loc[(slice(None), ids)]` and
`df.loc[dates, :]`) is embedded as selection by membership, with the
requested labels assumed present. -/
def compactGetData (cal : List Nat) (f : CompactFactor)
    (dates? : Option (List Nat)) (s? e? : Option Nat)
    (ids? : Option (List String)) (today : Nat) : CompactFactor × WideDF :=
  let data := f.data
  let data := match truthyL ids? with
    | none => data
    | some l => data.filter (fun r => decide (r.id ∈ l))
  let e := match truthyL dates? with
    | some ds => ds.foldl max 0
    | none => match e? with
      | some e0 => e0
      | none => today
  let dateList := selectDatesTo cal e
  let df := unstackTable data
  let filled := fun i =>
    ffillCol (fun x => if x ∈ df.rows then df.cell x i else none) none dateList
  let rows := dateList
  let rows := match s? with
    | some s => rows.filter (fun d => decide (s ≤ d))
    | none => rows
  let rows := match truthyL dates? with
    | some ds => ds
    | none => rows
  (f, { rows := rows
        cols := df.cols
        cell := fun d i => lookupRow (filled i) d })

/-! ### `YearlyReportFinancialFactor.get_data` -/

/-- Embeds the `ids` filter of `DBInterface.read_table`: `None` means no
restriction. -/
def idMatch (ids? : Option (List String)) (i : String) : Bool :=
  match ids? with
  | none => true
  | some l => decide (i ∈ l)

/-- Embeds the statement rows remaining after
`read_table(..., start_date=buffer_start, end_date=end_date, ids=ids)`,
`.dropna()` and the fiscal-year-end filter
`data.index.get_level_values('报告期').month == 12`. -/
def stmtData (tbl : List StmtRow) (bufferStart e : Nat) (ids? : Option (List String)) :
    List StmtRow :=
  (((tbl.filter (fun r => decide (bufferStart ≤ r.dt ∧ r.dt ≤ e) && idMatch ids? r.id)).filter
      (fun r => r.value.isSome)).filter
      (fun r => decide (r.period % 100 = 12)))

/-- Embeds `YearlyReportFinancialFactor.get_data` on the
`start_date`/`end_date` path (`dates=None`): a two-year lookback buffer,
the fiscal-year-end filter, then
`data.droplevel('报告期').unstack().reindex(index_dates).ffill().reindex(dates)`. -/
def yearlyGetData (cal : List Nat) (tbl : List StmtRow) (s e : Nat)
    (ids? : Option (List String)) : WideDF :=
  let bufferStart := s - 730
  let data := stmtData tbl bufferStart e ids?
  let indexDates := selectDates cal bufferStart e
  let dates := selectDates cal s e
  let df := unstackStmt data
  let filled := fun i =>
    ffillCol (fun x => if x ∈ df.rows then df.cell x i else none) none indexDates
  { rows := dates
    cols := df.cols
    cell := fun d i => lookupRow (filled i) d }

/-- Embeds `YearlyReportFinancialFactor.get_data` including the
`if dates:` branch.  On that branch the source executes
`end_date = max(end_date)` (line 187); `end_date` is a single datetime or
`None`, neither of which is iterable, so Python raises `TypeError` before
any data is read. -/
def yearlyGetDataFull (cal : List Nat) (tbl : List StmtRow)
    (dates? : Option (List Nat)) (s e : Nat)
    (ids? : Option (List String)) : Except String WideDF :=
  match truthyL dates? with
  | some _ds => Except.error "TypeError: object is not iterable"
  | none => Except.ok (yearlyGetData cal tbl s e ids?)

/-! ### `AShareDataReader._conform_df` and `AShareDataReader.get_factor` -/

/-- Embeds `AShareDataReader._conform_df`.  With `ffill` the date list runs
from the frame's first timestamp to `end_date`, the frame is reindexed onto
`date_list[:-1]`, forward-filled, then sliced from `start_date`; without
`ffill` the date list runs from `start_date` to `end_date` and the frame is
reindexed onto `date_list[:-1]`.  Finally columns are reindexed onto
`stock_list` (or the full stock universe). -/
def conformDf (cal : List Nat) (allStocks : List String) (df : WideDF)
    (ffill : Bool) (s? e? : Option Nat) (stockList? : Option (List String)) : WideDF :=
  let res :=
    if ffill then
      let firstTs := (df.rows.min?).getD 0
      let dateList := selectDatesOpt cal (some firstTs) e?
      let reRows := dateList.dropLast
      let filled := fun i =>
        ffillCol (fun d => if d ∈ df.rows then df.cell d i else none) none reRows
      let rows := match s? with
        | some s => reRows.filter (fun d => decide (s ≤ d))
        | none => reRows
      ({ rows := rows
         cols := df.cols
         cell := fun d i => lookupRow (filled i) d } : WideDF)
    else
      let dateList := selectDatesOpt cal s? e?
      let reRows := dateList.dropLast
      ({ rows := reRows
         cols := df.cols
         cell := fun d i => if d ∈ df.rows ∧ d ∈ reRows then df.cell d i else none } : WideDF)
  let sl := match stockList? with
    | none => allStocks
    | some l => l
  { rows := res.rows
    cols := sl
    cell := fun d i => if i ∈ res.cols then res.cell d i else none }

/-- Embeds `AShareDataReader.get_factor`: read the whole column, unstack,
then conform (the schema check is embedded separately by `checkArgs`). -/
def getFactor (cal : List Nat) (allStocks : List String) (tbl : List EventRow)
    (ffill : Bool) (s? e? : Option Nat) (stockList? : Option (List String)) : WideDF :=
  conformDf cal allStocks (unstackTable tbl) ffill s? e? stockList?

/-! ### Forward-fill lemmas -/

theorem foldl_ffill_of_all_none (g : Nat → Option Int) (m : List Nat)
    (h : ∀ x ∈ m, g x = none) (carry : Option Int) :
    m.foldl (ffillStep g) carry = carry := by
  induction m generalizing carry with
  | nil => rfl
  | cons a t ih =>
    have ha : g a = none := h a (List.mem_cons_self a t)
    simp only [List.foldl_cons, ffillStep, ha]
    exact ih (fun x hx => h x (List.mem_cons_of_mem a hx)) carry

theorem foldl_ffill_eq_some (g : Nat → Option Int) (m : List Nat)
    (hm : m.Pairwise (· < ·)) (x : Nat) (v : Int)
    (hx : x ∈ m) (hg : g x = some v)
    (hafter : ∀ y ∈ m, x < y → g y = none) :
    ∀ carry, m.foldl (ffillStep g) carry = some v := by
  induction m with
  | nil => cases hx
  | cons a t ih =>
    intro carry
    rcases List.mem_cons.mp hx with rfl | hxt
    · have ht : ∀ y ∈ t, g y = none := by
        intro y hy
        exact hafter y (List.mem_cons_of_mem x hy) ((List.pairwise_cons.mp hm).1 y hy)
      simp only [List.foldl_cons, ffillStep, hg]
      exact foldl_ffill_of_all_none g t ht (some v)
    · exact ih (List.pairwise_cons.mp hm).2 hxt
        (fun y hy h => hafter y (List.mem_cons_of_mem a hy) h) _

theorem foldl_ffill_some_src (g : Nat → Option Int) (m : List Nat) (v : Int) :
    ∀ carry, m.foldl (ffillStep g) carry = some v →
      (∃ x ∈ m, g x = some v) ∨ carry = some v := by
  induction m with
  | nil => intro carry h; exact Or.inr h
  | cons a t ih =>
    intro carry h
    simp only [List.foldl_cons] at h
    rcases ih (ffillStep g carry a) h with ⟨x, hx, hgx⟩ | hcarry
    · exact Or.inl ⟨x, List.mem_cons_of_mem a hx, hgx⟩
    · unfold ffillStep at hcarry
      cases hga : g a with
      | some w =>
        rw [hga] at hcarry
        exact Or.inl ⟨a, List.mem_cons_self a t, by rw [hga]; exact hcarry⟩
      | none =>
        rw [hga] at hcarry
        exact Or.inr hcarry

theorem lookupRow_ffillCol (g : Nat → Option Int) (l : List Nat)
    (hl : l.Pairwise (· < ·)) (d : Nat) (hd : d ∈ l) :
    ∀ carry, lookupRow (ffillCol g carry l) d =
      (l.filter (fun x => decide (x ≤ d))).foldl (ffillStep g) carry := by
  induction l with
  | nil => cases hd
  | cons a t ih =>
    intro carry
    rcases List.mem_cons.mp hd with rfl | hdt
    · have ht : t.filter (fun x => decide (x ≤ d)) = [] := by
        rw [List.filter_eq_nil_iff]
        intro y hy
        have : d < y := (List.pairwise_cons.mp hl).1 y hy
        simp only [decide_eq_true_eq]
        omega
      simp only [ffillCol, lookupRow, List.find?_cons, decide_True, List.filter_cons,
        decide_eq_true_eq, le_refl, if_true, ht, List.foldl_cons, List.foldl_nil]
    · have had : a ≤ d := Nat.le_of_lt ((List.pairwise_cons.mp hl).1 d hdt)
      have hne : a ≠ d := by
        intro h
        exact absurd ((List.pairwise_cons.mp hl).1 d hdt) (by omega)
      have step : lookupRow (ffillCol g carry (a :: t)) d =
          lookupRow (ffillCol g (ffillStep g carry a) t) d := by
        simp only [ffillCol, lookupRow, List.find?_cons]
        have : (decide ((a, ffillStep g carry a).1 = d)) = false := by
          simp only [decide_eq_false_iff_not]
          exact hne
        rw [this]
      rw [step, ih (List.pairwise_cons.mp hl).2 hdt (ffillStep g carry a)]
      simp only [List.filter_cons, decide_eq_true_eq, had, if_true, List.foldl_cons]

theorem lookup_filled_eq_some (g : Nat → Option Int) (l : List Nat)
    (hl : l.Pairwise (· < ·)) (d x : Nat) (v : Int)
    (hd : d ∈ l) (hx : x ∈ l) (hxd : x ≤ d) (hg : g x = some v)
    (hafter : ∀ y ∈ l, y ≤ d → x < y → g y = none) :
    lookupRow (ffillCol g none l) d = some v := by
  rw [lookupRow_ffillCol g l hl d hd none]
  refine foldl_ffill_eq_some g _ (hl.filter _) x v ?_ hg ?_ none
  · rw [List.mem_filter]
    exact ⟨hx, by simp only [decide_eq_true_eq]; exact hxd⟩
  · intro y hy hlt
    rw [List.mem_filter] at hy
    exact hafter y hy.1 (by simpa using hy.2) hlt

theorem lookup_filled_eq_none (g : Nat → Option Int) (l : List Nat)
    (hl : l.Pairwise (· < ·)) (d : Nat) (hd : d ∈ l)
    (hall : ∀ y ∈ l, y ≤ d → g y = none) :
    lookupRow (ffillCol g none l) d = none := by
  rw [lookupRow_ffillCol g l hl d hd none]
  refine foldl_ffill_of_all_none g _ ?_ none
  intro y hy
  rw [List.mem_filter] at hy
  exact hall y hy.1 (by simpa using hy.2)

theorem lookup_filled_some_src (g : Nat → Option Int) (l : List Nat)
    (hl : l.Pairwise (· < ·)) (d : Nat) (hd : d ∈ l) (v : Int)
    (h : lookupRow (ffillCol g none l) d = some v) :
    ∃ x ∈ l, x ≤ d ∧ g x = some v := by
  rw [lookupRow_ffillCol g l hl d hd none] at h
  rcases foldl_ffill_some_src g _ v none h with ⟨x, hx, hgx⟩ | hc
  · rw [List.mem_filter] at hx
    exact ⟨x, hx.1, by simpa using hx.2, hgx⟩
  · cases hc

/-! ### Calendar and cell lemmas -/

theorem mem_selectDates {cal : List Nat} {s e d : Nat} :
    d ∈ selectDates cal s e ↔ d ∈ cal ∧ s ≤ d ∧ d ≤ e := by
  simp [selectDates, List.mem_filter]

theorem mem_selectDatesTo {cal : List Nat} {e d : Nat} :
    d ∈ selectDatesTo cal e ↔ d ∈ cal ∧ d ≤ e := by
  simp [selectDatesTo, List.mem_filter]

theorem selectDates_pairwise {cal : List Nat} (h : cal.Pairwise (· < ·)) (s e : Nat) :
    (selectDates cal s e).Pairwise (· < ·) :=
  h.filter _

theorem selectDatesTo_pairwise {cal : List Nat} (h : cal.Pairwise (· < ·)) (e : Nat) :
    (selectDatesTo cal e).Pairwise (· < ·) :=
  h.filter _

theorem selectDatesOpt_pairwise {cal : List Nat} (h : cal.Pairwise (· < ·))
    (s? e? : Option Nat) : (selectDatesOpt cal s? e?).Pairwise (· < ·) :=
  h.filter _

theorem mem_selectDatesOpt {cal : List Nat} {s? e? : Option Nat} {d : Nat} :
    d ∈ selectDatesOpt cal s? e? ↔
      d ∈ cal ∧ (∀ s, s? = some s → s ≤ d) ∧ (∀ e, e? = some e → d ≤ e) := by
  cases s? <;> cases e? <;> simp [selectDatesOpt, List.mem_filter]

theorem unstackTable_cell_of_unique (tbl : List EventRow) (r : EventRow) (i : String)
    (hr : r ∈ tbl) (hi : r.id = i)
    (huniq : ∀ r2 ∈ tbl, r2.id = i → r2.dt = r.dt → r2 = r) :
    (unstackTable tbl).cell r.dt i = some r.value := by
  simp only [unstackTable]
  cases hfind : tbl.find? (fun r2 => decide (r2.dt = r.dt ∧ r2.id = i)) with
  | none =>
    rw [List.find?_eq_none] at hfind
    exact absurd (by simp [hi] : (decide (r.dt = r.dt ∧ r.id = i)) = true)
      (by simpa using hfind r hr)
  | some r2 =>
    have hp := List.find?_some hfind
    simp only [decide_eq_true_eq] at hp
    have := huniq r2 (List.mem_of_find?_eq_some hfind) hp.2 hp.1
    simp [this]

theorem unstackTable_cell_of_absent (tbl : List EventRow) (d : Nat) (i : String)
    (h : ∀ r ∈ tbl, r.id = i → r.dt ≠ d) :
    (unstackTable tbl).cell d i = none := by
  simp only [unstackTable]
  cases hfind : tbl.find? (fun r2 => decide (r2.dt = d ∧ r2.id = i)) with
  | none => rfl
  | some r2 =>
    have hp := List.find?_some hfind
    simp only [decide_eq_true_eq] at hp
    exact absurd hp.1 (h r2 (List.mem_of_find?_eq_some hfind) hp.2)

theorem mem_unstackTable_rows {tbl : List EventRow} {r : EventRow} (hr : r ∈ tbl) :
    r.dt ∈ (unstackTable tbl).rows := by
  simp only [unstackTable, List.mem_dedup, List.mem_map]
  exact ⟨r, hr, rfl⟩

theorem unstackStmt_cell_of_unique (tbl : List StmtRow) (r : StmtRow) (i : String)
    (hr : r ∈ tbl) (hi : r.id = i)
    (huniq : ∀ r2 ∈ tbl, r2.id = i → r2.dt = r.dt → r2 = r) :
    (unstackStmt tbl).cell r.dt i = r.value := by
  simp only [unstackStmt]
  cases hfind : tbl.find? (fun r2 => decide (r2.dt = r.dt ∧ r2.id = i)) with
  | none =>
    rw [List.find?_eq_none] at hfind
    exact absurd (by simp [hi] : (decide (r.dt = r.dt ∧ r.id = i)) = true)
      (by simpa using hfind r hr)
  | some r2 =>
    have hp := List.find?_some hfind
    simp only [decide_eq_true_eq] at hp
    have := huniq r2 (List.mem_of_find?_eq_some hfind) hp.2 hp.1
    simp [this]

theorem unstackStmt_cell_of_absent (tbl : List StmtRow) (d : Nat) (i : String)
    (h : ∀ r ∈ tbl, r.id = i → r.dt ≠ d) :
    (unstackStmt tbl).cell d i = none := by
  simp only [unstackStmt]
  cases hfind : tbl.find? (fun r2 => decide (r2.dt = d ∧ r2.id = i)) with
  | none => rfl
  | some r2 =>
    have hp := List.find?_some hfind
    simp only [decide_eq_true_eq] at hp
    exact absurd hp.1 (h r2 (List.mem_of_find?_eq_some hfind) hp.2)

theorem mem_unstackStmt_rows {tbl : List StmtRow} {r : StmtRow} (hr : r ∈ tbl) :
    r.dt ∈ (unstackStmt tbl).rows := by
  simp only [unstackStmt, List.mem_dedup, List.mem_map]
  exact ⟨r, hr, rfl⟩

theorem pairwise_getLast?_ge {l : List Nat} (hl : l.Pairwise (· < ·)) {L : Nat}
    (hL : l.getLast? = some L) : ∀ x ∈ l, x ≤ L := by
  induction l with
  | nil => cases hL
  | cons a t ih =>
    intro x hx
    cases t with
    | nil =>
      simp only [List.getLast?_singleton, Option.some.injEq] at hL
      rcases List.mem_singleton.mp hx with rfl
      omega
    | cons b u =>
      rw [List.getLast?_cons_cons] at hL
      rcases List.mem_cons.mp hx with rfl | hxt
      · have hbL : b ≤ L := ih (List.pairwise_cons.mp hl).2 hL b (List.mem_cons_self b u)
        have : x < b := (List.pairwise_cons.mp hl).1 b (List.mem_cons_self b u)
        omega
      · exact ih (List.pairwise_cons.mp hl).2 hL x hxt

theorem pairwise_dropLast_lt_getLast? {l : List Nat} (hl : l.Pairwise (· < ·)) {L : Nat}
    (hL : l.getLast? = some L) : ∀ x ∈ l.dropLast, x < L := by
  induction l with
  | nil => cases hL
  | cons a t ih =>
    intro x hx
    cases t with
    | nil => simp at hx
    | cons b u =>
      rw [List.getLast?_cons_cons] at hL
      rw [show (a :: b :: u).dropLast = a :: (b :: u).dropLast from rfl] at hx
      rcases List.mem_cons.mp hx with rfl | hxt
      · have hbL : b ≤ L := pairwise_getLast?_ge (List.pairwise_cons.mp hl).2 hL b
          (List.mem_cons_self b u)
        have : x < b := (List.pairwise_cons.mp hl).1 b (List.mem_cons_self b u)
        omega
      · exact ih (List.pairwise_cons.mp hl).2 hL x hxt

theorem getLast?_mem_self {l : List Nat} {a : Nat} (h : l.getLast? = some a) : a ∈ l := by
  obtain ⟨hne, rfl⟩ := List.mem_getLast?_eq_getLast (by simpa [Option.mem_def] using h)
  exact List.getLast_mem hne

theorem not_mem_dropLast_of_getLast?_bound (cal : List Nat) (hCal : cal.Pairwise (· < ·))
    (s? e? : Option Nat) (ft : Nat) (L : Nat)
    (hL : (selectDatesOpt cal s? e?).getLast? = some L)
    (hsL : ∀ s, s? = some s → s ≤ L) :
    L ∉ (selectDatesOpt cal (some ft) e?).dropLast := by
  intro hmem
  have hPf : (selectDatesOpt cal (some ft) e?).Pairwise (· < ·) :=
    selectDatesOpt_pairwise hCal _ _
  obtain ⟨M, hM⟩ : ∃ M, (selectDatesOpt cal (some ft) e?).getLast? = some M := by
    cases hg : (selectDatesOpt cal (some ft) e?).getLast? with
    | none =>
      have hnil : selectDatesOpt cal (some ft) e? = [] :=
        List.getLast?_eq_none_iff.mp hg
      rw [hnil] at hmem
      cases hmem
    | some M => exact ⟨M, rfl⟩
  have hLM : L < M := pairwise_dropLast_lt_getLast? hPf hM L hmem
  have hMmem := getLast?_mem_self hM
  rw [mem_selectDatesOpt] at hMmem
  obtain ⟨hMcal, _hMs, hMe⟩ := hMmem
  have hMdl : M ∈ selectDatesOpt cal s? e? := by
    rw [mem_selectDatesOpt]
    refine ⟨hMcal, ?_, hMe⟩
    intro s hs
    have := hsL s hs
    omega
  have : M ≤ L := pairwise_getLast?_ge (selectDatesOpt_pairwise hCal s? e?) hL M hMdl
  omega

theorem checkArgs_ok_iff (db : Store) (t : String) (fn : FactorNames)
    (hfn : fn ≠ FactorNames.one "") :
    checkArgs db t fn = Except.ok () ↔
      (existTable db (pyLower t) = true ∧
        ∀ n ∈ fn.toList, n ∈ getColumnsNames db (pyLower t)) := by
  unfold checkArgs
  cases h1 : existTable db (pyLower t) with
  | false => simp [h1]
  | true =>
    simp only [h1, if_true, true_and]
    cases h2 : fn.truthy with
    | false =>
      have hnil : fn.toList = [] := by
        cases fn with
        | one s =>
          simp only [FactorNames.truthy, decide_eq_false_iff_not, not_not] at h2
          exact absurd (by rw [h2]) hfn
        | many l =>
          simp only [FactorNames.truthy, decide_eq_false_iff_not, not_not] at h2
          simp [FactorNames.toList, h2]
      simp [h2, hnil]
    | true =>
      simp only [h2, if_true]
      constructor
      · intro hok
        intro n hn
        by_cases h3 : fn.toList.all (fun m => decide (m ∈ getColumnsNames db (pyLower t))) = true
        · simpa using List.all_eq_true.mp h3 n hn
        · rw [if_neg h3] at hok
          cases hok
      · intro hall
        have h3 : fn.toList.all (fun m => decide (m ∈ getColumnsNames db (pyLower t))) = true := by
          rw [List.all_eq_true]
          intro n hn
          simpa using hall n hn
        rw [if_pos h3]

theorem guarded_event_cell_eq_some (tbl : List EventRow) (r : EventRow) (i : String)
    (hr : r ∈ tbl) (hi : r.id = i)
    (huniq : ∀ r2 ∈ tbl, r2.id = i → r2.dt = r.dt → r2 = r) :
    (if r.dt ∈ (unstackTable tbl).rows then (unstackTable tbl).cell r.dt i else none) =
      some r.value := by
  rw [if_pos (mem_unstackTable_rows hr)]
  exact unstackTable_cell_of_unique tbl r i hr hi huniq

theorem guarded_event_cell_eq_none (tbl : List EventRow) (x : Nat) (i : String)
    (h : ∀ r ∈ tbl, r.id = i → r.dt ≠ x) :
    (if x ∈ (unstackTable tbl).rows then (unstackTable tbl).cell x i else none) = none := by
  by_cases hx : x ∈ (unstackTable tbl).rows
  · rw [if_pos hx]
    exact unstackTable_cell_of_absent tbl x i h
  · rw [if_neg hx]

theorem guarded_stmt_cell_eq (tbl : List StmtRow) (r : StmtRow) (i : String)
    (hr : r ∈ tbl) (hi : r.id = i)
    (huniq : ∀ r2 ∈ tbl, r2.id = i → r2.dt = r.dt → r2 = r) :
    (if r.dt ∈ (unstackStmt tbl).rows then (unstackStmt tbl).cell r.dt i else none) =
      r.value := by
  rw [if_pos (mem_unstackStmt_rows hr)]
  exact unstackStmt_cell_of_unique tbl r i hr hi huniq

theorem guarded_stmt_cell_eq_none (tbl : List StmtRow) (x : Nat) (i : String)
    (h : ∀ r ∈ tbl, r.id = i → r.dt ≠ x) :
    (if x ∈ (unstackStmt tbl).rows then (unstackStmt tbl).cell x i else none) = none := by
  by_cases hx : x ∈ (unstackStmt tbl).rows
  · rw [if_pos hx]
    exact unstackStmt_cell_of_absent tbl x i h
  · rw [if_neg hx]

theorem compact_rows_noStart (cal : List Nat) (f : CompactFactor) (ed today : Nat) :
    (compactGetData cal f none none (some ed) none today).2.rows = selectDatesTo cal ed := rfl

theorem compact_cell_noStart (cal : List Nat) (f : CompactFactor) (ed today d : Nat)
    (i : String) :
    (compactGetData cal f none none (some ed) none today).2.cell d i =
      lookupRow (ffillCol (fun x => if x ∈ (unstackTable f.data).rows
        then (unstackTable f.data).cell x i else none) none (selectDatesTo cal ed)) d := rfl

theorem compact_rows_start (cal : List Nat) (f : CompactFactor) (s ed today : Nat) :
    (compactGetData cal f none (some s) (some ed) none today).2.rows =
      (selectDatesTo cal ed).filter (fun d => decide (s ≤ d)) := rfl

theorem compact_cell_start (cal : List Nat) (f : CompactFactor) (s ed today d : Nat)
    (i : String) :
    (compactGetData cal f none (some s) (some ed) none today).2.cell d i =
      lookupRow (ffillCol (fun x => if x ∈ (unstackTable f.data).rows
        then (unstackTable f.data).cell x i else none) none (selectDatesTo cal ed)) d := rfl

theorem mem_stmtData {tbl : List StmtRow} {bufferStart e : Nat}
    {ids? : Option (List String)} {r : StmtRow} :
    r ∈ stmtData tbl bufferStart e ids? ↔
      r ∈ tbl ∧ bufferStart ≤ r.dt ∧ r.dt ≤ e ∧ idMatch ids? r.id = true ∧
        r.value.isSome = true ∧ r.period % 100 = 12 := by
  simp only [stmtData, List.mem_filter, Bool.and_eq_true, decide_eq_true_eq]
  tauto

theorem yearly_rows (cal : List Nat) (tbl : List StmtRow) (s e : Nat)
    (ids? : Option (List String)) :
    (yearlyGetData cal tbl s e ids?).rows = selectDates cal s e := rfl

theorem yearly_cell (cal : List Nat) (tbl : List StmtRow) (s e : Nat)
    (ids? : Option (List String)) (d : Nat) (i : String) :
    (yearlyGetData cal tbl s e ids?).cell d i =
      lookupRow (ffillCol
        (fun x => if x ∈ (unstackStmt (stmtData tbl (s - 730) e ids?)).rows
          then (unstackStmt (stmtData tbl (s - 730) e ids?)).cell x i else none)
        none (selectDates cal (s - 730) e)) d := rfl

theorem yearly_cell_of_latest (cal : List Nat) (tbl : List StmtRow) (s e : Nat)
    (ids? : Option (List String)) (i : String) (D P : Nat) (v : Int)
    (hCal : cal.Pairwise (· < ·))
    (hrec : (⟨D, i, P, some v⟩ : StmtRow) ∈ tbl)
    (hP : P % 100 = 12) (hid : idMatch ids? i = true)
    (hbuf : s - 730 ≤ D) (hDcal : D ∈ cal)
    (huniq : ∀ r ∈ tbl, r.id = i → r.dt = D → r = ⟨D, i, P, some v⟩)
    (d : Nat) (hd : d ∈ (yearlyGetData cal tbl s e ids?).rows) (hDd : D ≤ d)
    (hlatest : ∀ r ∈ tbl, r.id = i → r.dt ≤ d → r.dt ≤ D) :
    (yearlyGetData cal tbl s e ids?).cell d i = some v := by
  rw [yearly_rows, mem_selectDates] at hd
  obtain ⟨hdcal, hsd, hde⟩ := hd
  rw [yearly_cell]
  have hL : (selectDates cal (s - 730) e).Pairwise (· < ·) :=
    selectDates_pairwise hCal _ _
  have hmemD : (⟨D, i, P, some v⟩ : StmtRow) ∈ stmtData tbl (s - 730) e ids? :=
    mem_stmtData.mpr ⟨hrec, hbuf, Nat.le_trans hDd hde, hid, rfl, hP⟩
  refine lookup_filled_eq_some _ _ hL d D v ?_ ?_ hDd ?_ ?_
  · exact mem_selectDates.mpr ⟨hdcal, Nat.le_trans (Nat.sub_le s 730) hsd, hde⟩
  · exact mem_selectDates.mpr ⟨hDcal, hbuf, Nat.le_trans hDd hde⟩
  · exact guarded_stmt_cell_eq (stmtData tbl (s - 730) e ids?) ⟨D, i, P, some v⟩ i hmemD rfl
      (fun r2 h2 hid2 hdt2 => huniq r2 (mem_stmtData.mp h2).1 hid2 hdt2)
  · intro y hy hyd hDy
    refine guarded_stmt_cell_eq_none (stmtData tbl (s - 730) e ids?) y i ?_
    intro r2 h2 hid2 hdt2
    have h2tbl := (mem_stmtData.mp h2).1
    have : r2.dt ≤ D := hlatest r2 h2tbl hid2 (by omega)
    omega

theorem yearly_cell_some_src (cal : List Nat) (tbl : List StmtRow) (s e : Nat)
    (ids? : Option (List String)) (d : Nat) (i : String) (v : Int)
    (hCal : cal.Pairwise (· < ·))
    (hd : d ∈ (yearlyGetData cal tbl s e ids?).rows)
    (h : (yearlyGetData cal tbl s e ids?).cell d i = some v) :
    ∃ r ∈ tbl, r.id = i ∧ r.dt ≤ d ∧ r.value = some v := by
  rw [yearly_rows, mem_selectDates] at hd
  obtain ⟨hdcal, hsd, hde⟩ := hd
  rw [yearly_cell] at h
  have hL : (selectDates cal (s - 730) e).Pairwise (· < ·) :=
    selectDates_pairwise hCal _ _
  have hdL : d ∈ selectDates cal (s - 730) e :=
    mem_selectDates.mpr ⟨hdcal, Nat.le_trans (Nat.sub_le s 730) hsd, hde⟩
  obtain ⟨x, hxL, hxd, hgx⟩ := lookup_filled_some_src _ _ hL d hdL v h
  by_cases hxr : x ∈ (unstackStmt (stmtData tbl (s - 730) e ids?)).rows
  · rw [if_pos hxr] at hgx
    simp only [unstackStmt] at hgx
    rw [Option.bind_eq_some] at hgx
    obtain ⟨r2, hfind, hval⟩ := hgx
    have hp := List.find?_some hfind
    simp only [decide_eq_true_eq] at hp
    have h2 := (mem_stmtData.mp (List.mem_of_find?_eq_some hfind)).1
    exact ⟨r2, h2, hp.2, by omega, hval⟩
  · rw [if_neg hxr] at hgx
    cases hgx

/-! ### Claim theorems -/

/-- C7: factor construction lower-cases the table name before any schema
lookup, and fails at construction (as an `Except.error`, never silently)
exactly when the normalized table is absent from the store or some
requested field name is absent from its columns; the check depends only on
the lower-cased table name. -/
theorem factor_schema_validation (db : Store) (t : String) (fn : FactorNames)
    (hfn : fn ≠ FactorNames.one "") :
    ((∃ fid, factorInit db t fn = Except.ok fid) ↔
      (existTable db (pyLower t) = true ∧
        ∀ n ∈ fn.toList, n ∈ getColumnsNames db (pyLower t)))
    ∧ ∀ t2, pyLower t = pyLower t2 → checkArgs db t fn = checkArgs db t2 fn := by
  constructor
  · rw [← checkArgs_ok_iff db t fn hfn]
    unfold factorInit
    constructor
    · rintro ⟨fid, hok⟩
      cases hc : checkArgs db t fn with
      | ok u => cases u; rfl
      | error m => rw [hc] at hok; cases hok
    · intro hok
      rw [hok]
      exact ⟨⟨t, fn⟩, rfl⟩
  · intro t2 ht2
    unfold checkArgs
    rw [ht2]

/-- C7 witness: with store `[("price", ["close"])]`, constructing the
factor for table `"Price"` and field `"close"` succeeds, as the
normalized table exists and the field is one of its columns. -/
theorem factor_schema_validation_witness :
    (FactorNames.one "close" ≠ FactorNames.one "") ∧
    (∃ fid, factorInit [("price", ["close"])] "Price" (FactorNames.one "close") =
      Except.ok fid) := by
  refine ⟨by decide, ?_⟩
  refine ((factor_schema_validation [("price", ["close"])] "Price"
    (FactorNames.one "close") (by decide)).1).mpr ?_
  constructor
  · decide
  · decide

/-- C8: `CompactFactor.get_data` does not mutate the eagerly loaded cached
table: the factor state returned alongside the matrix is the input state,
and re-querying with the same arguments (the state of the first call
feeding the second) yields the identical matrix. -/
theorem compact_get_data_no_mutation (cal : List Nat) (f : CompactFactor)
    (dates? : Option (List Nat)) (s? e? : Option Nat)
    (ids? : Option (List String)) (today : Nat) :
    (compactGetData cal f dates? s? e? ids? today).1 = f ∧
    (compactGetData cal (compactGetData cal f dates? s? e? ids? today).1
        dates? s? e? ids? today).2
      = (compactGetData cal f dates? s? e? ids? today).2 :=
  ⟨rfl, rfl⟩

/-- C9: on the spec-modelled calendar, `days_count` is antisymmetric in its
arguments and vanishes on the diagonal. -/
theorem days_count_antisymmetry (cal : List Nat) (s e d : Nat)
    (_hs : s ∈ cal) (_he : e ∈ cal) (_hd : d ∈ cal) :
    daysCount cal s e = -(daysCount cal e s) ∧ daysCount cal d d = 0 := by
  unfold daysCount
  omega

/-- C9 witness: the calendar of the repository's `test_days_count`, with
trading days numbered 4 and 7: `days_count(4, 7) = 1 = -days_count(7, 4)`
and `days_count(4, 4) = 0`. -/
theorem days_count_antisymmetry_witness :
    ((4 ∈ ([4, 7] : List Nat)) ∧
      daysCount [4, 7] 4 7 = -(daysCount [4, 7] 7 4) ∧ daysCount [4, 7] 4 4 = 0)
    ∧ daysCount [4, 7] 4 7 = 1 := by
  refine ⟨⟨by decide, ?_, ?_⟩, by decide⟩
  · exact (days_count_antisymmetry [4, 7] 4 7 4 (by decide) (by decide) (by decide)).1
  · exact (days_count_antisymmetry [4, 7] 4 7 4 (by decide) (by decide) (by decide)).2

/-- C4: code bug on the explicit-dates path of
`YearlyReportFinancialFactor.get_data`: line 187 reads
`end_date = max(end_date)` instead of `max(dates)`, and `max` of a single
datetime (or `None`) raises `TypeError`, so every call with a non-empty
`dates` list fails instead of resolving the span to
`[min(dates), max(dates)]`. -/
theorem yearly_dates_branch_raises (cal : List Nat) (tbl : List StmtRow)
    (ds : List Nat) (s e : Nat) (ids? : Option (List String)) (hds : ds ≠ []) :
    yearlyGetDataFull cal tbl (some ds) s e ids? =
      Except.error "TypeError: object is not iterable" := by
  cases ds with
  | nil => exact absurd rfl hds
  | cons a t => rfl

/-- C4 witness: a concrete call with `dates = [15]` raises. -/
theorem yearly_dates_branch_raises_witness :
    (([15] : List Nat) ≠ []) ∧
    yearlyGetDataFull [10, 20] [⟨10, "A", 201812, some 5⟩] (some [15]) 10 20 none =
      Except.error "TypeError: object is not iterable" :=
  ⟨by decide, yearly_dates_branch_raises [10, 20] [⟨10, "A", 201812, some 5⟩]
    [15] 10 20 none (by decide)⟩

/-- C5 counterexample: calendar with trading days 4 and 7 and a single
event record dated 5 with value 10 (the spec's own concrete scenario, with
dates as day numbers).  Day 7 is a trading day at or after the event date,
yet `get_data(end_date=7)` shows a missing value there, not 10: the
`reindex(date_list)` happens before `ffill`, so an event dated on a
non-trading day is dropped entirely. -/
theorem compact_single_event_cex :
    ((5 : Nat) ≤ 7)
    ∧ 7 ∈ (compactGetData [4, 7] ⟨[⟨5, "A", 10⟩]⟩ none none (some 7) none 0).2.rows
    ∧ (compactGetData [4, 7] ⟨[⟨5, "A", 10⟩]⟩ none none (some 7) none 0).2.cell 7 "A"
        = none :=
  ⟨by decide, by decide, by decide⟩

/-- C5 (amended): for a security whose only event record is dated `e` with
value `v`, where `e` is a trading day of the calendar at or before the
query end, `get_data(end_date=ed)` shows `v` at every returned trading day
at or after `e` and a missing value at every returned trading day before
`e`; and any security all of whose events are dated after a returned
trading day has a missing value there (and no error is raised). -/
theorem compact_single_event (cal : List Nat) (f : CompactFactor) (i : String)
    (e : Nat) (v : Int) (ed : Nat)
    (hCal : cal.Pairwise (· < ·))
    (hrec : (⟨e, i, v⟩ : EventRow) ∈ f.data)
    (honly : ∀ r ∈ f.data, r.id = i → r = ⟨e, i, v⟩)
    (hecal : e ∈ cal) (heed : e ≤ ed) :
    (∀ d ∈ (compactGetData cal f none none (some ed) none 0).2.rows,
        (e ≤ d → (compactGetData cal f none none (some ed) none 0).2.cell d i = some v)
        ∧ (d < e → (compactGetData cal f none none (some ed) none 0).2.cell d i = none))
    ∧ (∀ j : String, ∀ d ∈ (compactGetData cal f none none (some ed) none 0).2.rows,
        (∀ r ∈ f.data, r.id = j → d < r.dt) →
        (compactGetData cal f none none (some ed) none 0).2.cell d j = none) := by
  have hL : (selectDatesTo cal ed).Pairwise (· < ·) := selectDatesTo_pairwise hCal ed
  constructor
  · intro d hd
    rw [compact_rows_noStart, mem_selectDatesTo] at hd
    have hdL : d ∈ selectDatesTo cal ed := mem_selectDatesTo.mpr hd
    constructor
    · intro hed
      rw [compact_cell_noStart]
      refine lookup_filled_eq_some _ _ hL d e v hdL ?_ hed ?_ ?_
      · exact mem_selectDatesTo.mpr ⟨hecal, heed⟩
      · exact guarded_event_cell_eq_some f.data ⟨e, i, v⟩ i hrec rfl
          (fun r2 h2 hid2 _ => honly r2 h2 hid2)
      · intro y hy hyd hey
        refine guarded_event_cell_eq_none f.data y i ?_
        intro r hr hir
        have := honly r hr hir
        rw [this]
        show e ≠ y
        omega
    · intro hde
      rw [compact_cell_noStart]
      refine lookup_filled_eq_none _ _ hL d hdL ?_
      intro y hy hyd
      refine guarded_event_cell_eq_none f.data y i ?_
      intro r hr hir
      have := honly r hr hir
      rw [this]
      show e ≠ y
      omega
  · intro j d hd hall
    rw [compact_rows_noStart] at hd
    rw [compact_cell_noStart]
    refine lookup_filled_eq_none _ _ hL d hd ?_
    intro y hy hyd
    refine guarded_event_cell_eq_none f.data y j ?_
    intro r hr hir
    have := hall r hr hir
    omega

/-- C5 witness: calendar `[4, 7]` with the single event moved onto the
trading day 4: the value 10 is visible on days 4 and 7, and a security
with no applicable record is missing. -/
theorem compact_single_event_witness :
    (([4, 7] : List Nat).Pairwise (· < ·))
    ∧ (compactGetData [4, 7] ⟨[⟨4, "A", 10⟩]⟩ none none (some 7) none 0).2.cell 7 "A"
        = some 10
    ∧ (compactGetData [4, 7] ⟨[⟨4, "A", 10⟩]⟩ none none (some 7) none 0).2.cell 4 "B"
        = none := by
  refine ⟨by decide, ?_, ?_⟩
  · exact ((compact_single_event [4, 7] ⟨[⟨4, "A", 10⟩]⟩ "A" 4 10 7 (by decide)
      (by decide) (by decide) (by decide) (by decide)).1 7 (by decide)).1 (by decide)
  · exact (compact_single_event [4, 7] ⟨[⟨4, "A", 10⟩]⟩ "A" 4 10 7 (by decide)
      (by decide) (by decide) (by decide) (by decide)).2 "B" 4 (by decide)
      (by decide)

/-- C6 counterexample: calendar `[10, 20, 30]`, one event for "A" dated 15
(not a trading day) with value 7, query with `start_date=20`,
`end_date=30`.  The event is effective before the start date with no later
event, yet the value does not appear at the returned day 20: the
`reindex` onto trading days silently discards the event row before the
forward fill that the claim relies on. -/
theorem compact_prestart_event_cex :
    ((15 : Nat) < 20)
    ∧ 20 ∈ (compactGetData [10, 20, 30] ⟨[⟨15, "A", 7⟩]⟩ none (some 20) (some 30)
        none 0).2.rows
    ∧ (compactGetData [10, 20, 30] ⟨[⟨15, "A", 7⟩]⟩ none (some 20) (some 30)
        none 0).2.cell 20 "A" = none :=
  ⟨by decide, by decide, by decide⟩

/-- C6 (amended): rows before `start_date` are dropped only after forward
fill, so for a security with an event dated `e` strictly before
`start_date`, where `e` is a trading day of the calendar and no event of
the security is later than `e`, the value still appears at every returned
trading day (in particular at `start_date` itself whenever `start_date` is
a trading day at or before `end_date`). -/
theorem compact_prestart_event (cal : List Nat) (f : CompactFactor) (i : String)
    (e : Nat) (v : Int) (s ed : Nat)
    (hCal : cal.Pairwise (· < ·))
    (hrec : (⟨e, i, v⟩ : EventRow) ∈ f.data)
    (hnolater : ∀ r ∈ f.data, r.id = i → r.dt ≤ e)
    (huniq : ∀ r ∈ f.data, r.id = i → r.dt = e → r = ⟨e, i, v⟩)
    (hecal : e ∈ cal) (hes : e < s) :
    (∀ d ∈ (compactGetData cal f none (some s) (some ed) none 0).2.rows,
        (compactGetData cal f none (some s) (some ed) none 0).2.cell d i = some v)
    ∧ (s ∈ cal → s ≤ ed →
        s ∈ (compactGetData cal f none (some s) (some ed) none 0).2.rows) := by
  have hL : (selectDatesTo cal ed).Pairwise (· < ·) := selectDatesTo_pairwise hCal ed
  constructor
  · intro d hd
    rw [compact_rows_start, List.mem_filter] at hd
    obtain ⟨hdL, hsd⟩ := hd
    rw [decide_eq_true_eq] at hsd
    have hded : d ≤ ed := (mem_selectDatesTo.mp hdL).2
    rw [compact_cell_start]
    refine lookup_filled_eq_some _ _ hL d e v hdL ?_ (by omega) ?_ ?_
    · exact mem_selectDatesTo.mpr ⟨hecal, by omega⟩
    · exact guarded_event_cell_eq_some f.data ⟨e, i, v⟩ i hrec rfl
        (fun r2 h2 hid2 hdt2 => huniq r2 h2 hid2 hdt2)
    · intro y hy hyd hey
      refine guarded_event_cell_eq_none f.data y i ?_
      intro r hr hir
      have := hnolater r hr hir
      omega
  · intro hscal hsed
    rw [compact_rows_start, List.mem_filter]
    exact ⟨mem_selectDatesTo.mpr ⟨hscal, hsed⟩, by simp⟩

/-- C6 witness: calendar `[10, 20, 30]`, event for "A" on trading day 10
with value 7, query `[20, 30]`: the value appears at both returned days. -/
theorem compact_prestart_event_witness :
    (([10, 20, 30] : List Nat).Pairwise (· < ·))
    ∧ (compactGetData [10, 20, 30] ⟨[⟨10, "A", 7⟩]⟩ none (some 20) (some 30)
        none 0).2.cell 20 "A" = some 7
    ∧ 20 ∈ (compactGetData [10, 20, 30] ⟨[⟨10, "A", 7⟩]⟩ none (some 20) (some 30)
        none 0).2.rows := by
  refine ⟨by decide, ?_, ?_⟩
  · exact (compact_prestart_event [10, 20, 30] ⟨[⟨10, "A", 7⟩]⟩ "A" 10 7 20 30
      (by decide) (by decide) (by decide) (by decide) (by decide) (by decide)).1
      20 (by decide)
  · exact (compact_prestart_event [10, 20, 30] ⟨[⟨10, "A", 7⟩]⟩ "A" 10 7 20 30
      (by decide) (by decide) (by decide) (by decide) (by decide) (by decide)).2
      (by decide) (by decide)

/-- C1 counterexample, two concrete violations of the claim.
First: calendar `[10, 20]`, one record disclosed on 15 (not a trading
day) for period Dec 2018 with value 100, query `[10, 20]`.  Trading day
20 lies in `[D, nextDisclosureDate) = [15, ∞)`, yet the series is missing
there instead of reflecting the value, because `reindex` onto trading
days drops the record before the forward fill.
Second: calendar `[10, 20, 30]`, records (disclosed 10, period Dec 2019,
value 200) and (disclosed 20, period Dec 2018, value 100).  For the
record disclosed on `D = 20`, trading day 10 < `D` shows the value of the
strictly later period Dec 2019, not "missing or a strictly earlier
period's value": the code drops the reporting-period level entirely. -/
theorem yearly_point_in_time_cex :
    (((15 : Nat) ≤ 20)
      ∧ 20 ∈ (yearlyGetData [10, 20] [⟨15, "A", 201812, some 100⟩] 10 20 none).rows
      ∧ (yearlyGetData [10, 20] [⟨15, "A", 201812, some 100⟩] 10 20 none).cell 20 "A"
          = none)
    ∧ (((10 : Nat) < 20) ∧ ((201812 : Nat) < 201912)
      ∧ 10 ∈ (yearlyGetData [10, 20, 30]
          [⟨10, "A", 201912, some 200⟩, ⟨20, "A", 201812, some 100⟩] 10 30 none).rows
      ∧ (yearlyGetData [10, 20, 30]
          [⟨10, "A", 201912, some 200⟩, ⟨20, "A", 201812, some 100⟩] 10 30 none).cell
          10 "A" = some 200) :=
  ⟨⟨by decide, by decide, by decide⟩, by decide, by decide, by decide, by decide⟩

/-- C1 (amended): on the `start_date`/`end_date` path,
(1) the value visible at any returned trading day `d` derives only from
statement records disclosed at or before `d` (no look-ahead, as claimed);
(2) for a record of security `i` disclosed on `D` describing period `P`
with value `v`, provided `D` is a trading day within the buffered fetch
window (`start_date - 730 ≤ D`, `D ∈ calendar`), the record passes the
fiscal-year-end and id filters, it is the only record of `i` disclosed on
`D`, and no record of `i` is disclosed in `(D, d]`, the series reflects
`v` at every returned trading day `d ≥ D`;
(3) at every returned trading day `d < D` the series is missing or shows
the value of some record disclosed strictly before `D` (not necessarily of
a strictly earlier reporting period, which the code does not track). -/
theorem yearly_point_in_time (cal : List Nat) (tbl : List StmtRow) (s e : Nat)
    (ids? : Option (List String)) (hCal : cal.Pairwise (· < ·)) :
    (∀ d ∈ (yearlyGetData cal tbl s e ids?).rows, ∀ (i : String) (v : Int),
        (yearlyGetData cal tbl s e ids?).cell d i = some v →
        ∃ r ∈ tbl, r.id = i ∧ r.dt ≤ d ∧ r.value = some v)
    ∧ (∀ (D P : Nat) (i : String) (v : Int),
        (⟨D, i, P, some v⟩ : StmtRow) ∈ tbl → P % 100 = 12 → idMatch ids? i = true →
        s - 730 ≤ D → D ∈ cal →
        (∀ r ∈ tbl, r.id = i → r.dt = D → r = ⟨D, i, P, some v⟩) →
        ∀ d ∈ (yearlyGetData cal tbl s e ids?).rows, D ≤ d →
          (∀ r ∈ tbl, r.id = i → ¬(D < r.dt ∧ r.dt ≤ d)) →
          (yearlyGetData cal tbl s e ids?).cell d i = some v)
    ∧ (∀ (D : Nat) (i : String), ∀ d ∈ (yearlyGetData cal tbl s e ids?).rows, d < D →
        (yearlyGetData cal tbl s e ids?).cell d i = none ∨
        ∃ r ∈ tbl, r.id = i ∧ r.dt < D ∧
          r.value = (yearlyGetData cal tbl s e ids?).cell d i) := by
  refine ⟨?_, ?_, ?_⟩
  · intro d hd i v h
    exact yearly_cell_some_src cal tbl s e ids? d i v hCal hd h
  · intro D P i v hrec hP hid hbuf hDcal huniq d hd hDd hnonext
    refine yearly_cell_of_latest cal tbl s e ids? i D P v hCal hrec hP hid hbuf hDcal
      huniq d hd hDd ?_
    intro r hr hir hrd
    have := hnonext r hr hir
    omega
  · intro D i d hd hdD
    cases h : (yearlyGetData cal tbl s e ids?).cell d i with
    | none => exact Or.inl rfl
    | some v =>
      obtain ⟨r, hr, hir, hrd, hrv⟩ :=
        yearly_cell_some_src cal tbl s e ids? d i v hCal hd h
      exact Or.inr ⟨r, hr, hir, by omega, hrv⟩

/-- C1 witness: calendar `[100, 200]`, a single record disclosed on the
trading day 100 for period Dec 2018 with value 7: the series reflects 7
on day 200. -/
theorem yearly_point_in_time_witness :
    (([100, 200] : List Nat).Pairwise (· < ·))
    ∧ (yearlyGetData [100, 200] [⟨100, "A", 201812, some 7⟩] 100 200 none).cell
        200 "A" = some 7 := by
  refine ⟨by decide, ?_⟩
  exact (yearly_point_in_time [100, 200] [⟨100, "A", 201812, some 7⟩] 100 200 none
    (by decide)).2.1 100 201812 "A" 7 (by decide) (by decide) (by decide) (by decide)
    (by decide) (by decide) 200 (by decide) (by decide) (by decide)

/-- C2 counterexample: calendar `[10, 30]`, records
(disclosed `D1 = 10`, period Dec 2018, value 100) and (disclosed
`D2 = 25`, period Dec 2018, value 105), query `[10, 30]`.  Trading day
30 ≥ `D2`, but the returned value is 100 — the `D1` record's value, which
the claim says is never returned there: `D2` is not a trading day, so the
restating record is dropped by the `reindex` before the forward fill. -/
theorem yearly_restatement_cex :
    ((10 : Nat) < 25) ∧ ((25 : Nat) ≤ 30) ∧ ((100 : Int) ≠ 105)
    ∧ 30 ∈ (yearlyGetData [10, 30]
        [⟨10, "A", 201812, some 100⟩, ⟨25, "A", 201812, some 105⟩] 10 30 none).rows
    ∧ (yearlyGetData [10, 30]
        [⟨10, "A", 201812, some 100⟩, ⟨25, "A", 201812, some 105⟩] 10 30 none).cell
        30 "A" = some 100 :=
  ⟨by decide, by decide, by decide, by decide, by decide⟩

/-- C2 (amended): restatement precedence holds once the restating
disclosure happens on a trading day inside the buffered fetch window:
given that the only records of security `i` are
(disclosed `D1`, period `P`, value `v1`) and (disclosed `D2`, period `P`,
value `v2`) with `D1 < D2`, `P` a fiscal-year-end period, `D2` a trading
day with `start_date - 730 ≤ D2`, the value at every returned trading day
`d ≥ D2` is `v2` (never `v1`); and if `D1` is likewise a trading day in
the window, every returned trading day in `[D1, D2)` shows `v1`. -/
theorem yearly_restatement_precedence (cal : List Nat) (tbl : List StmtRow)
    (s e : Nat) (ids? : Option (List String)) (i : String) (P D1 D2 : Nat)
    (v1 v2 : Int)
    (hCal : cal.Pairwise (· < ·))
    (h1 : (⟨D1, i, P, some v1⟩ : StmtRow) ∈ tbl)
    (h2 : (⟨D2, i, P, some v2⟩ : StmtRow) ∈ tbl)
    (hD : D1 < D2) (hP : P % 100 = 12) (hid : idMatch ids? i = true)
    (honly : ∀ r ∈ tbl, r.id = i →
      r = ⟨D1, i, P, some v1⟩ ∨ r = ⟨D2, i, P, some v2⟩)
    (hbuf2 : s - 730 ≤ D2) (hcal2 : D2 ∈ cal) :
    (∀ d ∈ (yearlyGetData cal tbl s e ids?).rows, D2 ≤ d →
        (yearlyGetData cal tbl s e ids?).cell d i = some v2)
    ∧ (D1 ∈ cal → s - 730 ≤ D1 →
        ∀ d ∈ (yearlyGetData cal tbl s e ids?).rows, D1 ≤ d → d < D2 →
        (yearlyGetData cal tbl s e ids?).cell d i = some v1) := by
  constructor
  · intro d hd hD2d
    refine yearly_cell_of_latest cal tbl s e ids? i D2 P v2 hCal h2 hP hid hbuf2 hcal2
      ?_ d hd hD2d ?_
    · intro r hr hir hdt
      rcases honly r hr hir with h | h
      · exact absurd (show D1 = D2 by rw [h] at hdt; exact hdt) (by omega)
      · exact h
    · intro r hr hir _
      rcases honly r hr hir with h | h
      · rw [h]
        show D1 ≤ D2
        omega
      · rw [h]
  · intro hcal1 hbuf1 d hd hD1d hdD2
    refine yearly_cell_of_latest cal tbl s e ids? i D1 P v1 hCal h1 hP hid hbuf1 hcal1
      ?_ d hd hD1d ?_
    · intro r hr hir hdt
      rcases honly r hr hir with h | h
      · exact h
      · exact absurd (show D2 = D1 by rw [h] at hdt; exact hdt) (by omega)
    · intro r hr hir hrd
      rcases honly r hr hir with h | h
      · rw [h]
      · exact absurd (show D2 ≤ d by rw [h] at hrd; exact hrd) (by omega)

/-- C2 witness: the spec's restatement scenario with `D1 = 10`, `D2 = 50`
both trading days of calendar `[10, 50, 90]`: day 90 shows 105, day 10
shows 100. -/
theorem yearly_restatement_precedence_witness :
    (([10, 50, 90] : List Nat).Pairwise (· < ·))
    ∧ (yearlyGetData [10, 50, 90]
        [⟨10, "A", 201812, some 100⟩, ⟨50, "A", 201812, some 105⟩] 10 90 none).cell
        90 "A" = some 105
    ∧ (yearlyGetData [10, 50, 90]
        [⟨10, "A", 201812, some 100⟩, ⟨50, "A", 201812, some 105⟩] 10 90 none).cell
        10 "A" = some 100 := by
  refine ⟨by decide, ?_, ?_⟩
  · exact (yearly_restatement_precedence [10, 50, 90]
      [⟨10, "A", 201812, some 100⟩, ⟨50, "A", 201812, some 105⟩] 10 90 none "A"
      201812 10 50 100 105 (by decide) (by decide) (by decide) (by decide) (by decide)
      (by decide) (by decide) (by decide) (by decide)).1 90 (by decide) (by decide)
  · exact (yearly_restatement_precedence [10, 50, 90]
      [⟨10, "A", 201812, some 100⟩, ⟨50, "A", 201812, some 105⟩] 10 90 none "A"
      201812 10 50 100 105 (by decide) (by decide) (by decide) (by decide) (by decide)
      (by decide) (by decide) (by decide) (by decide)).2 (by decide) (by decide)
      10 (by decide) (by decide) (by decide)

/-- C3 counterexample: calendar `[10, 20, 30, 40]`, records
(disclosed 10, period Dec 2019, value 200) and (disclosed 20, period
Dec 2018, value 100).  At trading day 40 both records are disclosed; the
claim selects the latest reporting period (Dec 2019, value 200), but the
code returns 100: it drops the reporting-period level and keeps only the
most recently disclosed record, even when that record describes an older
period. -/
theorem yearly_latest_period_cex :
    ((201812 : Nat) < 201912) ∧ ((10 : Nat) ≤ 40) ∧ ((20 : Nat) ≤ 40)
    ∧ 40 ∈ (yearlyGetData [10, 20, 30, 40]
        [⟨10, "A", 201912, some 200⟩, ⟨20, "A", 201812, some 100⟩] 10 40 none).rows
    ∧ (yearlyGetData [10, 20, 30, 40]
        [⟨10, "A", 201912, some 200⟩, ⟨20, "A", 201812, some 100⟩] 10 40 none).cell
        40 "A" = some 100
    ∧ (some (100 : Int)) ≠ (some (200 : Int)) :=
  ⟨by decide, by decide, by decide, by decide, by decide, by decide⟩

/-- C3 (amended): for each returned trading day `d`, the factor selects
per security the value of the record with the latest disclosure date at
or before `d` — regardless of reporting period — among the fetched
fiscal-year-end records whose disclosure date is a trading day of the
buffered window: if the record of `i` disclosed on trading day `D`
(`start_date - 730 ≤ D ≤ d`, unique at `D`) has the latest disclosure
date among the records of `i` disclosed at or before `d`, its value is
returned at `d`. -/
theorem yearly_latest_disclosure_selection (cal : List Nat) (tbl : List StmtRow)
    (s e : Nat) (ids? : Option (List String)) (i : String) (D P : Nat) (v : Int)
    (hCal : cal.Pairwise (· < ·))
    (hrec : (⟨D, i, P, some v⟩ : StmtRow) ∈ tbl)
    (hP : P % 100 = 12) (hid : idMatch ids? i = true)
    (hbuf : s - 730 ≤ D) (hDcal : D ∈ cal)
    (huniq : ∀ r ∈ tbl, r.id = i → r.dt = D → r = ⟨D, i, P, some v⟩)
    (d : Nat) (hd : d ∈ (yearlyGetData cal tbl s e ids?).rows) (hDd : D ≤ d)
    (hlatest : ∀ r ∈ tbl, r.id = i → r.dt ≤ d → r.dt ≤ D) :
    (yearlyGetData cal tbl s e ids?).cell d i = some v :=
  yearly_cell_of_latest cal tbl s e ids? i D P v hCal hrec hP hid hbuf hDcal huniq
    d hd hDd hlatest

/-- C3 witness: calendar `[10, 50]`, a single record disclosed on trading
day 10 for period Dec 2018 with value 9: day 50 shows 9. -/
theorem yearly_latest_disclosure_selection_witness :
    (([10, 50] : List Nat).Pairwise (· < ·))
    ∧ (yearlyGetData [10, 50] [⟨10, "A", 201812, some 9⟩] 10 50 none).cell 50 "A"
        = some 9 := by
  refine ⟨by decide, ?_⟩
  exact yearly_latest_disclosure_selection [10, 50] [⟨10, "A", 201812, some 9⟩]
    10 50 none "A" 10 201812 9 (by decide) (by decide) (by decide) (by decide)
    (by decide) (by decide) (by decide) 50 (by decide) (by decide) (by decide)

/-- C10 (implicit): `_conform_df` reindexes the frame onto
`date_list[:-1]`: without `ffill` the returned row index is exactly the
selected trading-day range with its final element removed, and — whatever
the `ffill` setting — the last trading day of the resolved
`[start_date, end_date]` range is never present in the output rows;
`get_factor` returns rows conformed this way. -/
theorem conform_df_drops_last_row (cal : List Nat) (allStocks : List String)
    (df : WideDF) (ffill : Bool) (s? e? : Option Nat)
    (stockList? : Option (List String)) (hCal : cal.Pairwise (· < ·)) :
    ((ffill = false →
        (conformDf cal allStocks df ffill s? e? stockList?).rows =
          (selectDatesOpt cal s? e?).dropLast)
      ∧ ∀ L, (selectDatesOpt cal s? e?).getLast? = some L →
          L ∉ (conformDf cal allStocks df ffill s? e? stockList?).rows)
    ∧ ∀ tbl, (getFactor cal allStocks tbl ffill s? e? stockList?).rows =
        (conformDf cal allStocks (unstackTable tbl) ffill s? e? stockList?).rows := by
  refine ⟨⟨?_, ?_⟩, fun tbl => rfl⟩
  · intro hff
    subst hff
    rfl
  · intro L hL hmem
    cases ffill with
    | false =>
      have hrows : (conformDf cal allStocks df false s? e? stockList?).rows =
          (selectDatesOpt cal s? e?).dropLast := rfl
      rw [hrows] at hmem
      exact absurd
        (pairwise_dropLast_lt_getLast? (selectDatesOpt_pairwise hCal s? e?) hL L hmem)
        (by omega)
    | true =>
      cases hs : s? with
      | none =>
        have hrows : (conformDf cal allStocks df true none e? stockList?).rows =
            (selectDatesOpt cal (some ((df.rows.min?).getD 0)) e?).dropLast := rfl
        rw [hs, hrows] at hmem
        rw [hs] at hL
        exact not_mem_dropLast_of_getLast?_bound cal hCal none e? _ L hL
          (fun s hcontra => by cases hcontra) hmem
      | some s =>
        have hrows : (conformDf cal allStocks df true (some s) e? stockList?).rows =
            ((selectDatesOpt cal (some ((df.rows.min?).getD 0)) e?).dropLast).filter
              (fun d => decide (s ≤ d)) := rfl
        rw [hs, hrows, List.mem_filter] at hmem
        obtain ⟨hmemd, hsL⟩ := hmem
        rw [decide_eq_true_eq] at hsL
        rw [hs] at hL
        refine not_mem_dropLast_of_getLast?_bound cal hCal (some s) e? _ L hL ?_ hmemd
        intro s2 hs2
        injection hs2 with hs2e
        omega

/-- C10 witness: calendar `[1, 2, 3]`, query `[1, 3]`: the last trading
day 3 is absent from the conformed rows in both `ffill` modes. -/
theorem conform_df_drops_last_row_witness :
    (([1, 2, 3] : List Nat).Pairwise (· < ·))
    ∧ 3 ∉ (conformDf [1, 2, 3] ["A"] ⟨[1], ["A"], fun _ _ => none⟩ true
        (some 1) (some 3) none).rows
    ∧ 3 ∉ (conformDf [1, 2, 3] ["A"] ⟨[1], ["A"], fun _ _ => none⟩ false
        (some 1) (some 3) none).rows := by
  refine ⟨by decide, ?_, ?_⟩
  · exact ((conform_df_drops_last_row [1, 2, 3] ["A"] ⟨[1], ["A"], fun _ _ => none⟩
      true (some 1) (some 3) none (by decide)).1).2 3 (by decide)
  · exact ((conform_df_drops_last_row [1, 2, 3] ["A"] ⟨[1], ["A"], fun _ _ => none⟩
      false (some 1) (some 3) none (by decide)).1).2 3 (by decide)

end AShareData
